import Mathlib

/-!
Verification of the Duck Machine instruction codec, ALU and CPU step
machine against its design specification.

Python integers are modelled as `Int`.  Python's floor division `//`
and floor modulus `%` are `Int.fdiv` and `Int.fmod`; for any integer
`x` and positive modulus `2 ^ w`, Python's `x & (2 ^ w - 1)` equals
`x.fmod (2 ^ w)` and `x >> k` equals `x.fdiv (2 ^ k)`, so the bit
operations of the codec are rendered with `fdiv`/`fmod`.
-/

namespace DuckMachine

/-- Modelled from the spec: `bitfield.py` is absent from the sources.
A `BitField` is an immutable descriptor of the inclusive bit range
[low, high] of a 32-bit word, 0-indexed, low ≤ high ≤ 31. -/
structure BitField where
  low : Nat
  high : Nat
deriving DecidableEq, Repr

/-- Number of bits in the field. -/
def BitField.width (f : BitField) : Nat := f.high - f.low + 1

/-- Modelled from the spec: `extract(word)` returns the unsigned integer
found in bits [low, high] of `word`, right-shifted to start at bit 0. -/
def BitField.extract (f : BitField) (word : Int) : Int :=
  (word.fdiv (2 ^ f.low)).fmod (2 ^ f.width)

/-- Modelled from the spec: `extract_signed(word)` additionally interprets
the top bit of the field as a sign bit and sign-extends (two's-complement)
when it is set. -/
def BitField.extract_signed (f : BitField) (word : Int) : Int :=
  let u := f.extract word
  if 2 ^ (f.width - 1) ≤ u then u - 2 ^ f.width else u

/-- Modelled from the spec: `insert(value, word)` masks `value` to the
field's bit width (silently truncating out-of-range values) and returns
`word` with that field's bits replaced, all other bits preserved. -/
def BitField.insert (f : BitField) (value : Int) (word : Int) : Int :=
  word.fmod (2 ^ f.low) + (word.fdiv (2 ^ (f.high + 1))) * 2 ^ (f.high + 1)
    + (value.fmod (2 ^ f.width)) * 2 ^ f.low

/-! The field bit positions of the DM2022 instruction word
(`instr_format.py`). -/

def instr_field : BitField := ⟨26, 30⟩
def cond_field : BitField := ⟨22, 25⟩
def reg_target_field : BitField := ⟨18, 21⟩
def reg_src1_field : BitField := ⟨14, 17⟩
def reg_src2_field : BitField := ⟨10, 13⟩
def offset_field : BitField := ⟨0, 9⟩

/-- The operation codes of `instr_format.py` (note the reserved gap at 4). -/
inductive OpCode where
  | HALT
  | LOAD
  | STORE
  | ADD
  | SUB
  | MUL
  | DIV
deriving DecidableEq, Repr

/-- The numeric value of each operation code. -/
def OpCode.value : OpCode → Int
  | .HALT => 0
  | .LOAD => 1
  | .STORE => 2
  | .ADD => 3
  | .SUB => 5
  | .MUL => 6
  | .DIV => 7

/-- Python's `OpCode(v)`: the enum member with value `v`, or an
`InvalidEncoding` failure (`none`) when `v` is not a legal value. -/
def OpCode.ofInt? (v : Int) : Option OpCode :=
  if v = 0 then some .HALT
  else if v = 1 then some .LOAD
  else if v = 2 then some .STORE
  else if v = 3 then some .ADD
  else if v = 5 then some .SUB
  else if v = 6 then some .MUL
  else if v = 7 then some .DIV
  else none

/-- A `CondFlag` value is the integer value of a Python `Flag` over the
bits M=1, Z=2, P=4, V=8; any combination in 0..15 is a legal member. -/
abbrev CondFlag := Nat

def CondFlag.M : CondFlag := 1
def CondFlag.Z : CondFlag := 2
def CondFlag.P : CondFlag := 4
def CondFlag.V : CondFlag := 8
def CondFlag.NEVER : CondFlag := 0
def CondFlag.ALWAYS : CondFlag := 15

/-- Python's `CondFlag(v)`: succeeds exactly for the integer values that
are combinations of the flag bits, i.e. 0..15; any other value raises an
`InvalidEncoding` failure (`none`).  (This is the behaviour of the
CPython ≤ 3.10 `Flag` class the Spring-2022 project ran on; no theorem
below depends on how negative values are treated.) -/
def CondFlag.ofInt? (v : Int) : Option CondFlag :=
  if 0 ≤ v ∧ v ≤ 15 then some v.toNat else none

/-- A decoded DM2022 instruction (`instr_format.py`).  Register fields are
kept as Python integers because `decode` can produce negative values. -/
structure Instruction where
  op : OpCode
  cond : CondFlag
  reg_target : Int
  reg_src1 : Int
  reg_src2 : Int
  offset : Int
deriving DecidableEq, Repr

/-- `Instruction.encode` from `instr_format.py`: insert each field of the
instruction into a zero word. -/
def Instruction.encode (i : Instruction) : Int :=
  let word : Int := 0
  let word := instr_field.insert i.op.value word
  let word := cond_field.insert (i.cond : Int) word
  let word := reg_target_field.insert i.reg_target word
  let word := reg_src1_field.insert i.reg_src1 word
  let word := reg_src2_field.insert i.reg_src2 word
  offset_field.insert i.offset word

/-- `decode` from `instr_format.py`.  Note that the source extracts every
field, including the opcode, condition and register fields, with
`extract_signed`; a field value whose top bit is set comes out negative.
An illegal opcode or condition value is an `InvalidEncoding` failure
(`none`). -/
def decode (word : Int) : Option Instruction :=
  match OpCode.ofInt? (instr_field.extract_signed word),
        CondFlag.ofInt? (cond_field.extract_signed word) with
  | some op, some cond =>
      some ⟨op, cond,
            reg_target_field.extract_signed word,
            reg_src1_field.extract_signed word,
            reg_src2_field.extract_signed word,
            offset_field.extract_signed word⟩
  | _, _ => none

/-! ## The ALU (`cpu.py`) -/

namespace ALU

/-- The operation table `ALU_OPS` of `cpu.py`.  `DIV` is Python's `//`,
floor division, rendered as `Int.fdiv`. -/
def ALU_OPS (op : OpCode) (x y : Int) : Int :=
  match op with
  | .ADD => x + y
  | .SUB => x - y
  | .MUL => x * y
  | .DIV => x.fdiv y
  | .LOAD => x + y
  | .STORE => x + y
  | .HALT => 0

/-- `ALU.exec` from `cpu.py`.  The bare `except` catches exactly the
`ZeroDivisionError` raised by `//` (the only fallible entry of the table)
and converts it to `(0, V)`; otherwise the flag is derived from the sign
of the result. -/
def exec (op : OpCode) (in1 in2 : Int) : Int × CondFlag :=
  if op = OpCode.DIV ∧ in2 = 0 then (0, CondFlag.V)
  else
    let op_result := ALU_OPS op in1 in2
    if op_result = 0 then (op_result, CondFlag.Z)
    else if op_result < 0 then (op_result, CondFlag.M)
    else (op_result, CondFlag.P)

end ALU

/-! ## Registers, memory and the CPU (`register.py`, `cpu.py`) -/

/-- The register file of `CPU.__init__`: sixteen registers, all holding 0
initially.  Index 0 holds the `ZeroRegister`. -/
def initRegs : Fin 16 → Int := fun _ => 0

/-- Writing register `i`: the `ZeroRegister` at index 0 silently discards
the value (`ZeroRegister.put` of `register.py` is a no-op); every other
register stores it. -/
def putReg (regs : Fin 16 → Int) (i : Fin 16) (v : Int) : Fin 16 → Int :=
  if i = 0 then regs else Function.update regs i v

/-- Python list indexing on the 16-element register list of the CPU:
indices 0..15 select directly, indices -16..-1 select from the end,
anything else is a fatal `IndexError`. -/
def pyIndex16 (i : Int) : Option (Fin 16) :=
  if h : 0 ≤ i ∧ i < 16 then some ⟨i.toNat, by omega⟩
  else if h2 : -16 ≤ i ∧ i < 0 then some ⟨(i + 16).toNat, by omega⟩
  else none

/-- Modelled from the spec: `memory.py` is absent from the sources.  A
memory is a fixed-size addressable array of integer words with index
range [0, size); out-of-range access is a fatal error (`none`). -/
structure Memory where
  data : List Int
deriving DecidableEq, Repr

/-- Modelled from the spec: `Memory.get(addr)` returns the word stored at
`addr`, a fatal error (`none`) outside [0, size). -/
def Memory.get (m : Memory) (addr : Int) : Option Int :=
  if h : 0 ≤ addr ∧ addr < (m.data.length : Int) then
    some (m.data.get ⟨addr.toNat, by omega⟩)
  else none

/-- Modelled from the spec: `Memory.put(addr, value)` stores `value` at
`addr`, a fatal error (`none`) outside [0, size). -/
def Memory.put (m : Memory) (addr : Int) (value : Int) : Option Memory :=
  if 0 ≤ addr ∧ addr < (m.data.length : Int) then
    some ⟨m.data.set addr.toNat value⟩
  else none

/-- The mutable state owned by a `CPU` object: the sixteen registers
(register 15 is the program counter), the condition-flag register and the
halted flag.  `CPU.__init__` starts with all registers 0, condition
`ALWAYS` and `halted = False`. -/
structure CPUState where
  regs : Fin 16 → Int
  condition : CondFlag
  halted : Bool

/-- The execute phase of `CPU.step` (`cpu.py` lines 116-151), applied to
the already decoded instruction.  Faithful points: the predicate test is
`condition & instr.cond` being non-zero; operand reads happen before the
program counter is incremented; the program counter (register 15) is
incremented before any result is committed; `STORE` reads the target
register after that increment; only the final (arithmetic) branch writes
the condition register. -/
def stepInstr (s : CPUState) (m : Memory) (instr : Instruction) :
    Option (CPUState × Memory) :=
  if s.condition &&& instr.cond ≠ 0 then
    match pyIndex16 instr.reg_src1, pyIndex16 instr.reg_src2 with
    | some i1, some i2 =>
      let left_op := s.regs i1
      let right_op := s.regs i2 + instr.offset
      let result := ALU.exec instr.op left_op right_op
      let regs1 := putReg s.regs 15 (s.regs 15 + 1)
      match instr.op with
      | .STORE =>
        match pyIndex16 instr.reg_target with
        | some it =>
          match m.put result.1 (regs1 it) with
          | some m2 => some ({ s with regs := regs1 }, m2)
          | none => none
        | none => none
      | .LOAD =>
        match pyIndex16 instr.reg_target, m.get result.1 with
        | some it, some location_val =>
            some ({ s with regs := putReg regs1 it location_val }, m)
        | _, _ => none
      | .HALT => some ({ s with regs := regs1, halted := true }, m)
      | _ =>
        match pyIndex16 instr.reg_target with
        | some it =>
            some ({ s with regs := putReg regs1 it result.1,
                           condition := result.2 }, m)
        | none => none
    | _, _ => none
  else
    some ({ s with regs := putReg s.regs 15 (s.regs 15 + 1) }, m)

/-- `CPU.step` from `cpu.py`: fetch the word addressed by register 15,
decode it (a decode failure is fatal), then execute.  The observer
callback `notify_all` has no effect on CPU or memory state and is
omitted. -/
def step (s : CPUState) (m : Memory) : Option (CPUState × Memory) :=
  match m.get (s.regs 15) with
  | some instr_word =>
    match decode instr_word with
    | some instr => stepInstr s m instr
    | none => none
  | none => none

/-- Follows the spec's words, for comparison with `decode`: the decoder
variant whose three register fields are extracted unsigned, as section
4.2 of the spec describes; opcode, condition and offset are handled
exactly as `decode` handles them. -/
def decodeU (word : Int) : Option Instruction :=
  match OpCode.ofInt? (instr_field.extract_signed word),
        CondFlag.ofInt? (cond_field.extract_signed word) with
  | some op, some cond =>
      some ⟨op, cond,
            reg_target_field.extract word,
            reg_src1_field.extract word,
            reg_src2_field.extract word,
            offset_field.extract_signed word⟩
  | _, _ => none

/-- Follows the spec's words: `step` with the unsigned-register decoder
`decodeU` in place of `decode`. -/
def stepU (s : CPUState) (m : Memory) : Option (CPUState × Memory) :=
  match m.get (s.regs 15) with
  | some instr_word =>
    match decodeU instr_word with
    | some instr => stepInstr s m instr
    | none => none
  | none => none

/-! ## Helper lemmas -/

/-- An extracted field value is non-negative. -/
lemma BitField.extract_nonneg (f : BitField) (w : Int) : 0 ≤ f.extract w :=
  Int.fmod_nonneg' _ (by positivity)

/-- An extracted field value is below `2 ^ width`. -/
lemma BitField.extract_lt (f : BitField) (w : Int) :
    f.extract w < 2 ^ f.width :=
  Int.fmod_lt_of_pos _ (by positivity)

/-- Writing any register never changes what register 0 holds. -/
lemma putReg_apply_zero (r : Fin 16 → Int) (i : Fin 16) (v : Int) :
    putReg r i v 0 = r 0 := by
  unfold putReg
  split_ifs with h
  · rfl
  · exact Function.update_noteq (fun h0 => h h0.symm) v r

/-- Register 0 is unchanged by any sequence of register writes. -/
lemma foldl_putReg_apply_zero (ops : List (Fin 16 × Int)) :
    ∀ r : Fin 16 → Int,
      (ops.foldl (fun r p => putReg r p.1 p.2) r) 0 = r 0 := by
  induction ops with
  | nil => intro r; rfl
  | cons p ops ih =>
      intro r
      simpa [List.foldl_cons] using (ih (putReg r p.1 p.2)).trans
        (putReg_apply_zero r p.1 p.2)

/-! ## The claims -/

/-- C4: for every integer `n`, `ALU.exec DIV n 0 = (0, V)`: the division
fault is converted to data inside the ALU and no exception escapes. -/
theorem claimC4 (n : Int) : ALU.exec OpCode.DIV n 0 = (0, CondFlag.V) := by
  simp [ALU.exec]

/-- C1: the claimed round-trip fails on the code.  The instruction
`Instruction(ADD, M, 15, 0, 0, 0)` has every field inside its legal
numeric range (register 15 is the program counter), yet decoding its
encoding yields `reg_target = -1` because `decode` extracts the register
fields with `extract_signed`, contradicting the module's own docstring
("All are unsigned except offset"). -/
theorem claimC1 :
    decode (Instruction.encode ⟨OpCode.ADD, CondFlag.M, 15, 0, 0, 0⟩) =
      some ⟨OpCode.ADD, CondFlag.M, -1, 0, 0, 0⟩ ∧
    decode (Instruction.encode ⟨OpCode.ADD, CondFlag.M, 15, 0, 0, 0⟩) ≠
      some ⟨OpCode.ADD, CondFlag.M, 15, 0, 0, 0⟩ := by
  constructor <;> decide

/-- C6: the claimed unsigned extraction fails on the code.  The word
3932160 = 15 <<< 18 holds opcode 0 (HALT), condition 0 (NEVER) and
target-register field 15, but `decode` sign-extends the register field
and returns `reg_target = -1`, outside 0..15, contradicting the module's
own docstring ("All are unsigned except offset"). -/
theorem claimC6 :
    decode (3932160 : Int) =
      some ⟨OpCode.HALT, CondFlag.NEVER, -1, 0, 0, 0⟩ := by
  decide

/-- C8: the zero-register invariant.  Starting from the initial register
file, any sequence of `put` operations with any values leaves register 0
holding 0; moreover a single write through `putReg` (the only way any
CPU operation writes a register) never changes register 0, so writes to
register 0 are silently discarded. -/
theorem claimC8 :
    (∀ ops : List (Fin 16 × Int),
        (ops.foldl (fun r p => putReg r p.1 p.2) initRegs) 0 = 0) ∧
    (∀ (r : Fin 16 → Int) (i : Fin 16) (v : Int), putReg r i v 0 = r 0) := by
  exact ⟨fun ops => foldl_putReg_apply_zero ops initRegs,
         putReg_apply_zero⟩

/-- C3: when the predicate is not satisfied (`condition & instr.cond = 0`,
which with predicate `NEVER = 0` holds regardless of the condition
register), the only state change of `step` is that the program counter
advances by 1: memory, the condition register, the halted flag and every
register other than 15 are untouched, and no ALU call or operand access
occurs (the successor state is built from the predicate-failure branch
alone). -/
theorem claimC3 (s : CPUState) (m : Memory) (w : Int) (instr : Instruction)
    (hw : m.get (s.regs 15) = some w) (hd : decode w = some instr)
    (h : s.condition &&& instr.cond = 0 ∨ instr.cond = 0) :
    step s m = some ({ s with regs := putReg s.regs 15 (s.regs 15 + 1) }, m) ∧
    (putReg s.regs 15 (s.regs 15 + 1)) 15 = s.regs 15 + 1 ∧
    ∀ i : Fin 16, i ≠ 15 → (putReg s.regs 15 (s.regs 15 + 1)) i = s.regs i := by
  have hz : s.condition &&& instr.cond = 0 := by
    rcases h with h | h
    · exact h
    · simp [h]
  refine ⟨?_, ?_, ?_⟩
  · simp [step, hw, hd, stepInstr, hz]
  · simp [putReg, Function.update_same]
  · intro i hi
    simp [putReg, Function.update_noteq hi]

/-- C3 witness: an `ADD` with predicate `NEVER` (word 201588739 encodes
`ADD/NEVER r1,r0,r0[3]`) only advances the program counter. -/
theorem claimC3_witness :
    step ⟨initRegs, CondFlag.ALWAYS, false⟩ ⟨[201588739]⟩ =
      some (⟨putReg initRegs 15 (initRegs 15 + 1), CondFlag.ALWAYS, false⟩,
            ⟨[201588739]⟩) ∧
    (putReg initRegs 15 (initRegs 15 + 1)) 15 = initRegs 15 + 1 ∧
    ∀ i : Fin 16, i ≠ 15 →
      (putReg initRegs 15 (initRegs 15 + 1)) i = initRegs i :=
  claimC3 ⟨initRegs, CondFlag.ALWAYS, false⟩ ⟨[201588739]⟩ 201588739
    ⟨OpCode.ADD, 0, 1, 0, 0, 3⟩ (by decide) (by decide) (Or.inr rfl)

/-- C2: when the predicate is satisfied, the program counter is
incremented before the opcode's result is committed: for an arithmetic
instruction whose target register resolves to register 15 (the PC), the
final PC holds the ALU result computed from the operands read in the
pre-increment state `s` — the committed result overwrites the
incremented PC. -/
theorem claimC2 (s : CPUState) (m : Memory) (w : Int) (instr : Instruction)
    (i1 i2 : Fin 16)
    (hw : m.get (s.regs 15) = some w) (hd : decode w = some instr)
    (harith : instr.op = OpCode.ADD ∨ instr.op = OpCode.SUB ∨
              instr.op = OpCode.MUL ∨ instr.op = OpCode.DIV)
    (hpred : s.condition &&& instr.cond ≠ 0)
    (ht : pyIndex16 instr.reg_target = some 15)
    (h1 : pyIndex16 instr.reg_src1 = some i1)
    (h2 : pyIndex16 instr.reg_src2 = some i2) :
    step s m = some ({ s with
        regs := putReg (putReg s.regs 15 (s.regs 15 + 1)) 15
                  (ALU.exec instr.op (s.regs i1) (s.regs i2 + instr.offset)).1,
        condition :=
          (ALU.exec instr.op (s.regs i1) (s.regs i2 + instr.offset)).2 }, m) ∧
    (putReg (putReg s.regs 15 (s.regs 15 + 1)) 15
        (ALU.exec instr.op (s.regs i1) (s.regs i2 + instr.offset)).1) 15 =
      (ALU.exec instr.op (s.regs i1) (s.regs i2 + instr.offset)).1 := by
  constructor
  · rcases harith with hop | hop | hop | hop <;>
      simp [step, hw, hd, stepInstr, hpred, h1, h2, ht, hop]
  · simp [putReg, Function.update_same]

/-- C2 witness: word 234618883 encodes `ADD/MZP pc,r0,r0[3]` (target
field 15 decodes to -1, which selects register 15); run from the initial
state its final PC is the ALU result 0 + (0 + 3) = 3, not the
incremented PC 1. -/
theorem claimC2_witness :
    step ⟨initRegs, CondFlag.ALWAYS, false⟩ ⟨[234618883]⟩ =
      some (⟨putReg (putReg initRegs 15 (initRegs 15 + 1)) 15
               (ALU.exec OpCode.ADD (initRegs 0) (initRegs 0 + 3)).1,
             (ALU.exec OpCode.ADD (initRegs 0) (initRegs 0 + 3)).2, false⟩,
            ⟨[234618883]⟩) ∧
    (putReg (putReg initRegs 15 (initRegs 15 + 1)) 15
        (ALU.exec OpCode.ADD (initRegs 0) (initRegs 0 + 3)).1) 15 =
      (ALU.exec OpCode.ADD (initRegs 0) (initRegs 0 + 3)).1 :=
  claimC2 ⟨initRegs, CondFlag.ALWAYS, false⟩ ⟨[234618883]⟩ 234618883
    ⟨OpCode.ADD, 7, -1, 0, 0, 3⟩ 0 0 (by decide) (by decide)
    (Or.inl rfl) (by decide) (by decide) (by decide) (by decide)

/-- C7: the condition-flag register is updated only by an arithmetic
instruction executing with its predicate satisfied: an executed `LOAD`,
`STORE` or `HALT` leaves it exactly as it was, and so does any
instruction whose predicate is not satisfied. -/
theorem claimC7 (s : CPUState) (m : Memory) (w : Int) (instr : Instruction)
    (s' : CPUState) (m' : Memory)
    (hw : m.get (s.regs 15) = some w) (hd : decode w = some instr)
    (hstep : step s m = some (s', m')) :
    ((instr.op = OpCode.LOAD ∨ instr.op = OpCode.STORE ∨
      instr.op = OpCode.HALT) → s'.condition = s.condition) ∧
    (s.condition &&& instr.cond = 0 → s'.condition = s.condition) := by
  simp only [step, hw, hd] at hstep
  obtain ⟨op, cond, rt, r1, r2, off⟩ := instr
  unfold stepInstr at hstep
  simp only at hstep
  constructor
  · rintro (hop | hop | hop) <;> subst hop <;>
      · repeat' split at hstep
        all_goals first
          | (simp only [Option.some.injEq, Prod.mk.injEq] at hstep;
             rw [← hstep.1])
          | simp at hstep
  · intro hz
    rw [if_neg (by simpa using hz)] at hstep
    simp only [Option.some.injEq, Prod.mk.injEq] at hstep
    rw [← hstep.1]

/-- C7 witness: an executed `HALT` (word 29360128 encodes
`HALT/MZP r0,r0,r0[0]`) halts the machine but leaves the condition
register exactly as it was. -/
theorem claimC7_witness :
    ((Instruction.op ⟨OpCode.HALT, 7, 0, 0, 0, 0⟩ = OpCode.LOAD ∨
      Instruction.op ⟨OpCode.HALT, 7, 0, 0, 0, 0⟩ = OpCode.STORE ∨
      Instruction.op ⟨OpCode.HALT, 7, 0, 0, 0, 0⟩ = OpCode.HALT) →
      CPUState.condition
          ⟨putReg initRegs 15 (initRegs 15 + 1), CondFlag.ALWAYS, true⟩ =
        CPUState.condition ⟨initRegs, CondFlag.ALWAYS, false⟩) ∧
    (CPUState.condition ⟨initRegs, CondFlag.ALWAYS, false⟩ &&&
        Instruction.cond ⟨OpCode.HALT, 7, 0, 0, 0, 0⟩ = 0 →
      CPUState.condition
          ⟨putReg initRegs 15 (initRegs 15 + 1), CondFlag.ALWAYS, true⟩ =
        CPUState.condition ⟨initRegs, CondFlag.ALWAYS, false⟩) :=
  claimC7 ⟨initRegs, CondFlag.ALWAYS, false⟩ ⟨[29360128]⟩ 29360128
    ⟨OpCode.HALT, 7, 0, 0, 0, 0⟩
    ⟨putReg initRegs 15 (initRegs 15 + 1), CondFlag.ALWAYS, true⟩
    ⟨[29360128]⟩ (by decide) (by decide) (by rfl)

/-- C9: a word whose opcode field holds a value outside the legal
operation codes {0,1,2,3,5,6,7}, or whose condition field holds a value
outside the legal flag combinations 0..15 (impossible for a 4-bit field,
so that disjunct is vacuous), fails to decode: `decode` reports an
`InvalidEncoding` failure rather than returning an instruction. -/
theorem claimC9 (w : Int)
    (h : ¬(instr_field.extract w = 0 ∨ instr_field.extract w = 1 ∨
           instr_field.extract w = 2 ∨ instr_field.extract w = 3 ∨
           instr_field.extract w = 5 ∨ instr_field.extract w = 6 ∨
           instr_field.extract w = 7) ∨
         ¬(0 ≤ cond_field.extract w ∧ cond_field.extract w ≤ 15)) :
    decode w = none := by
  rcases h with h | h
  · have h0 := instr_field.extract_nonneg w
    have h1 := instr_field.extract_lt w
    have hw5 : (2 : Int) ^ instr_field.width = 32 := by
      norm_num [instr_field, BitField.width]
    have hw4 : (2 : Int) ^ (instr_field.width - 1) = 16 := by
      norm_num [instr_field, BitField.width]
    rw [hw5] at h1
    push_neg at h
    have hop : OpCode.ofInt? (instr_field.extract_signed w) = none := by
      have hsig : instr_field.extract_signed w =
          if 16 ≤ instr_field.extract w then instr_field.extract w - 32
          else instr_field.extract w := by
        simp only [BitField.extract_signed, hw4, hw5]
      rw [hsig]
      unfold OpCode.ofInt?
      split_ifs <;> first | rfl | omega
    simp [decode, hop]
  · have hb0 := cond_field.extract_nonneg w
    have hb1 := cond_field.extract_lt w
    have hw4 : (2 : Int) ^ cond_field.width = 16 := by
      norm_num [cond_field, BitField.width]
    rw [hw4] at hb1
    exact absurd ⟨hb0, by omega⟩ h

/-- C9 witness: the word 268435456 = 4 <<< 26 holds opcode value 4, the
reserved gap, and fails to decode. -/
theorem claimC9_witness : decode (268435456 : Int) = none :=
  claimC9 268435456 (Or.inl (by decide))

/-- For a 4-bit field, Python's negative-index selection on the
16-register list maps the sign-extended field value to the same physical
register as the raw unsigned field value. -/
lemma pyIndex16_extract_signed (f : BitField) (hf : f.width = 4) (w : Int) :
    pyIndex16 (f.extract_signed w) = pyIndex16 (f.extract w) := by
  have h0 := f.extract_nonneg w
  have h1 := f.extract_lt w
  rw [hf] at h1
  norm_num at h1
  have hsig : f.extract_signed w =
      if 8 ≤ f.extract w then f.extract w - 16 else f.extract w := by
    simp only [BitField.extract_signed, hf]
    norm_num
  rw [hsig]
  by_cases h8 : 8 ≤ f.extract w
  · rw [if_pos h8]
    unfold pyIndex16
    split_ifs <;>
      first
        | rfl
        | omega
        | (simp only [Option.some.injEq, Fin.mk.injEq]; omega)
  · rw [if_neg h8]

/-- The execute phase only consumes the register fields through
`pyIndex16`, so two decoded instructions whose register fields resolve to
the same physical registers execute identically. -/
lemma stepInstr_congr (s : CPUState) (m : Memory) (i i' : Instruction)
    (hop : i.op = i'.op) (hcond : i.cond = i'.cond)
    (ht : pyIndex16 i.reg_target = pyIndex16 i'.reg_target)
    (h1 : pyIndex16 i.reg_src1 = pyIndex16 i'.reg_src1)
    (h2 : pyIndex16 i.reg_src2 = pyIndex16 i'.reg_src2)
    (hoff : i.offset = i'.offset) :
    stepInstr s m i = stepInstr s m i' := by
  obtain ⟨op, cond, rt, r1, r2, off⟩ := i
  obtain ⟨op', cond', rt', r1', r2', off'⟩ := i'
  simp only at hop hcond ht h1 h2 hoff
  subst hop hcond hoff
  unfold stepInstr
  simp only
  rw [ht, h1, h2]

/-- C10: although `decode` sign-extends the three 4-bit register fields
(8..15 decode to -8..-1), `step`'s register selection through Python's
negative list indexing is equivalent to unsigned selection: `step` is
extensionally equal to `stepU`, the step machine over the decoder that
extracts the register fields unsigned. -/
theorem claimC10 (s : CPUState) (m : Memory) : step s m = stepU s m := by
  unfold step stepU
  cases hg : m.get (s.regs 15) with
  | none => rfl
  | some word =>
    simp only
    unfold decode decodeU
    cases ho : OpCode.ofInt? (instr_field.extract_signed word) with
    | none => rfl
    | some op =>
      cases hc : CondFlag.ofInt? (cond_field.extract_signed word) with
      | none => rfl
      | some cond =>
        simp only
        exact stepInstr_congr s m _ _ rfl rfl
          (pyIndex16_extract_signed reg_target_field
            (by norm_num [reg_target_field, BitField.width]) word)
          (pyIndex16_extract_signed reg_src1_field
            (by norm_num [reg_src1_field, BitField.width]) word)
          (pyIndex16_extract_signed reg_src2_field
            (by norm_num [reg_src2_field, BitField.width]) word)
          rfl

/-- Negating numerator and denominator leaves Python floor division
unchanged. -/
lemma fdiv_neg_neg (a b : Int) : (-a).fdiv (-b) = a.fdiv b := by
  rcases a with (_ | m) | m <;> rcases b with (_ | n) | n <;>
    first
      | rfl
      | simp [Int.ofNat_zero, neg_zero, Int.fdiv_zero]

/-- `Int.fdiv` by a positive divisor is the rational floor. -/
lemma fdiv_eq_floor_of_pos (a : Int) (n : Nat) (hn : 0 < n) :
    a.fdiv n = ⌊(a : ℚ) / ((n : Int) : ℚ)⌋ := by
  rw [Int.fdiv_eq_ediv _ (by positivity)]
  rw [show (((n : Int) : ℚ)) = ((n : ℕ) : ℚ) by push_cast; ring]
  exact (Rat.floor_intCast_div_natCast a n).symm

/-- `Int.fdiv` by any non-zero divisor is the rational floor: division
truncates toward negative infinity. -/
lemma fdiv_eq_floor (a b : Int) (hb : b ≠ 0) :
    a.fdiv b = ⌊(a : ℚ) / (b : ℚ)⌋ := by
  rcases lt_or_gt_of_ne hb with hneg | hpos
  · have h1 : a.fdiv b = (-a).fdiv (-b) := (fdiv_neg_neg a b).symm
    obtain ⟨n, hn⟩ : ∃ n : ℕ, -b = (n : Int) :=
      ⟨(-b).toNat, (Int.toNat_of_nonneg (by omega)).symm⟩
    rw [h1, hn, fdiv_eq_floor_of_pos _ _ (by omega)]
    congr 1
    rw [show ((n : Int) : ℚ) = -((b : ℚ)) by rw [← hn]; push_cast; ring]
    push_cast
    rw [div_neg, neg_div, neg_neg]
  · obtain ⟨n, hn⟩ : ∃ n : ℕ, b = (n : Int) :=
      ⟨b.toNat, (Int.toNat_of_nonneg (by omega)).symm⟩
    rw [hn, fdiv_eq_floor_of_pos _ _ (by omega)]

/-- C5: for every non-zero divisor, the ALU's `DIV` result is the
mathematical floor of the quotient (truncation toward negative infinity,
not toward zero), and in particular `apply(DIV, 12, -3) = (-4, M)`. -/
theorem claimC5 (a b : Int) (hb : b ≠ 0) :
    (ALU.exec OpCode.DIV a b).1 = ⌊(a : ℚ) / (b : ℚ)⌋ ∧
    ALU.exec OpCode.DIV 12 (-3) = (-4, CondFlag.M) := by
  constructor
  · have hfst : (ALU.exec OpCode.DIV a b).1 = a.fdiv b := by
      unfold ALU.exec
      rw [if_neg (by simp [hb])]
      show (if a.fdiv b = 0 then (a.fdiv b, CondFlag.Z)
            else if a.fdiv b < 0 then (a.fdiv b, CondFlag.M)
            else (a.fdiv b, CondFlag.P)).1 = a.fdiv b
      split_ifs <;> rfl
    rw [hfst, fdiv_eq_floor a b hb]
  · decide

/-- C5 witness: at the concrete input `(12, -3)` the ALU returns the
floor -4 (not the toward-zero truncation -3) with flag `M`. -/
theorem claimC5_witness :
    (ALU.exec OpCode.DIV 12 (-3)).1 = ⌊((12 : Int) : ℚ) / (((-3) : Int) : ℚ)⌋ ∧
    ALU.exec OpCode.DIV 12 (-3) = (-4, CondFlag.M) :=
  claimC5 12 (-3) (by decide)

end DuckMachine
